import Mathlib

/-!
Shallow embedding of the earthmc-scraper ingestion pipeline
(Go packages `api`, `scraper`, and the SQL schema), with theorems
settling the specification claims.

Modelling conventions:
* machine integers are `Nat`/`Int`; time is measured in seconds as `Nat`;
* outbound HTTP is a function from attempt number (or request payload) to
  an outcome, supplied as a parameter;
* `json.RawMessage` is a record carrying the verbatim payload together with
  the result of identity extraction (JSON parsing itself is external to the
  embedding);
* the database `Exec` of a multi-row statement succeeds exactly when the
  built placeholder list is the canonical well-formed form `$1..$4k` with a
  matching argument count (a leading comma or a placeholder index beyond
  the supplied arguments is rejected by the database).
-/

namespace EarthMC

/-! ### Fetch client (`internal/api`, part_001) -/

/-- Outcome of one HTTP attempt inside `doWithRetry`: either the transport
fails (request error / body read error), or a response arrives with a status
code and, for non-error statuses, a decode result (`none` = unmarshal
failure). -/
inductive AttemptOutcome (V : Type) where
  | netError : AttemptOutcome V
  | response (status : Nat) (decoded : Option V) : AttemptOutcome V
deriving DecidableEq, Repr

/-- The ways `doWithRetry` can fail. -/
inductive FetchError where
  | clientError (status : Nat)
  | decodeError
  | exhausted
deriving DecidableEq, Repr

/-- Result of a `doWithRetry` call: the returned value or error, the number
of attempts actually issued, and the total backoff slept (seconds). -/
structure RetryResult (V : Type) where
  result : Except FetchError V
  attemptsMade : Nat
  totalBackoff : Nat

/-- Backoff before retry attempt `attempt` (1-based count of retries):
`time.Duration(1<<uint(attempt-1)) * time.Second`. -/
def backoff (attempt : Nat) : Nat := 2 ^ (attempt - 1)

/-- The retry loop of `doWithRetry`, embedded with `remaining` counting the
loop iterations left, mirroring the bounded for-loop over attempts 0, 1, 2.
A status `>= 500` and a transport error are retried; a status `>= 400`
returns immediately; an unmarshal failure returns immediately; otherwise the
decoded value is returned. -/
def retryLoop {V : Type} (f : Nat → AttemptOutcome V) :
    Nat → Nat → Nat → Nat → RetryResult V
  | 0, _, made, waited => ⟨.error .exhausted, made, waited⟩
  | remaining + 1, attempt, made, waited =>
    let waited := if attempt > 0 then waited + backoff attempt else waited
    match f attempt with
    | .netError => retryLoop f remaining (attempt + 1) (made + 1) waited
    | .response status dec =>
      if 500 ≤ status then
        retryLoop f remaining (attempt + 1) (made + 1) waited
      else if 400 ≤ status then
        ⟨.error (.clientError status), made + 1, waited⟩
      else
        match dec with
        | none => ⟨.error .decodeError, made + 1, waited⟩
        | some v => ⟨.ok v, made + 1, waited⟩

/-- Function `doWithRetry`: at most 3 attempts total. -/
def doWithRetry {V : Type} (f : Nat → AttemptOutcome V) : RetryResult V :=
  retryLoop f 3 0 0 0

/-- Chunk splitting as performed by the `batchPost` loop
(the loop advancing an index i by batchSize up to the list length), with
explicit fuel so the
definition is structural; `chunksOf` supplies fuel `xs.length`. -/
def chunksGo (n : Nat) : Nat → List α → List (List α)
  | _, [] => []
  | 0, _ :: _ => []
  | fuel + 1, x :: rest => ((x :: rest).take n) :: chunksGo n fuel ((x :: rest).drop n)

/-- Consecutive chunks of size `n` (last chunk may be shorter). -/
def chunksOf (n : Nat) (xs : List α) : List (List α) :=
  chunksGo n xs.length xs

/-- API batch size: 100 ids per POST request. -/
def batchSize : Nat := 100

/-- The collection loop of `batchPost` over the chunks: issue one POST per
chunk, stop at the first error, concatenate results in request order.
Returns the overall result together with the number of outbound requests
issued. -/
def batchPostAux {R : Type} (post : List String → Except FetchError (List R)) :
    List (List String) → Except FetchError (List R) × Nat
  | [] => (.ok [], 0)
  | c :: cs =>
    match post c with
    | .error e => (.error e, 1)
    | .ok rs =>
      let rest := batchPostAux post cs
      (rest.1.map (fun more => rs ++ more), rest.2 + 1)

/-- Function `batchPost` / `GetEntityDetails`: split the id list into chunks of
`batchSize` and collect the per-chunk POST results. -/
def batchPost {R : Type} (post : List String → Except FetchError (List R))
    (uuids : List String) : Except FetchError (List R) × Nat :=
  batchPostAux post (chunksOf batchSize uuids)

/-! ### API response shapes (`internal/api`, part_002) -/

/-- Shared list entry (name + uuid). -/
structure ListEntry where
  name : String
  uuid : String
deriving DecidableEq, Repr

/-- One entry of the map feed `players.json`. -/
structure MapPlayer where
  world : String
  name : String
  x : Int
  y : Int
  z : Int
  displayName : String
  uuid : String
  yaw : Int
deriving DecidableEq, Repr

/-- Response of `/online`. -/
structure OnlineResponse where
  count : Int
  players : List ListEntry
deriving DecidableEq, Repr

/-- Response of the map feed `players.json`. -/
structure MapPlayersResponse where
  max : Int
  players : List MapPlayer
deriving DecidableEq, Repr

/-! ### High-frequency activity ingestor (`internal/scraper`, part_003) -/

/-- Function `normalizeUUID`: strips dashes from a UUID for comparison
(`strings.ReplaceAll(uuid, "-", "")`; with a one-character pattern and empty
replacement this removes every dash). -/
def normalizeUUID (uuid : String) : String :=
  ⟨uuid.data.filter (fun c => c ≠ '-')⟩

/-- A single player activity record (`activityRow`); `Option` stands for the
nullable pointer fields. -/
structure ActivityRow where
  playerUUID : String
  playerName : String
  isOnline : Bool
  isVisible : Bool
  x : Option Int
  y : Option Int
  z : Option Int
  yaw : Option Int
  world : Option String
deriving DecidableEq, Repr

/-- The `visibleMap` of the tick: a Go map keyed by normalized UUID, built
by iterating the map players in order (a later assignment to the same key
overwrites the earlier one). -/
def visibleMap (players : List MapPlayer) : String → Option MapPlayer :=
  players.foldl
    (fun m p => fun k => if k = normalizeUUID p.uuid then some p else m k)
    (fun _ => none)

/-- The row-building loop of the tick: one row per online player, in order;
a player found in `visibleMap` under the normalized key is visible and
carries position/world/yaw, otherwise online-but-not-visible with null
position fields. -/
def buildRows (online : List ListEntry) (maps : List MapPlayer) :
    List ActivityRow :=
  let vm := visibleMap maps
  online.map (fun op =>
    match vm (normalizeUUID op.uuid) with
    | some mp =>
      ⟨op.uuid, op.name, true, true,
        some mp.x, some mp.y, some mp.z, some mp.yaw, some mp.world⟩
    | none =>
      ⟨op.uuid, op.name, true, false, none, none, none, none, none⟩)

/-- The store writes performed by one activity tick: the batched
`player_activity` insert and the `players` dimension upsert, each carrying
the tick timestamp and the row set (or `none` when not performed). -/
structure TickWrites where
  activityInsert : Option (Nat × List ActivityRow)
  playersUpsert : Option (Nat × List ActivityRow)
deriving DecidableEq, Repr

/-- The fetch-join-write core of `HighFreq.tick`, as a function of the two
concurrent fetch results: an online-fetch error aborts the tick with no
writes; a map-fetch error is replaced by the zero-value
`api.MapPlayersResponse{}`; an empty row set stops before any write;
otherwise the rows are bulk-inserted and the dimension bulk-upserted. -/
def tick (online : Except FetchError OnlineResponse)
    (maps : Except FetchError MapPlayersResponse) (ts : Nat) : TickWrites :=
  match online with
  | .error _ => ⟨none, none⟩
  | .ok oresp =>
    let mresp := match maps with
      | .error _ => (⟨0, []⟩ : MapPlayersResponse)
      | .ok m => m
    let rows := buildRows oresp.players mresp.players
    if rows = [] then ⟨none, none⟩
    else ⟨some (ts, rows), some (ts, rows)⟩

/-! ### Dimension upsert (`upsertPlayers` / `upsertTowns` / `upsertNations`
and the `players` table of 001_initial.sql) -/

/-- A row of a dimension table (`players` / `towns` / `nations`). -/
structure DimRow where
  uuid : String
  name : String
  first_seen : Nat
  last_seen : Nat
deriving DecidableEq, Repr

/-- Relational semantics of one `INSERT ... ON CONFLICT (uuid) DO UPDATE SET
name = EXCLUDED.name, last_seen = EXCLUDED.last_seen` row, against a table
whose `uuid` column is the primary key: an existing row keeps its
`first_seen` and gets the new `name` and `last_seen`; a missing `uuid` is
inserted with `first_seen = last_seen = ts`. -/
def upsertRow (table : List DimRow) (uuid name : String) (ts : Nat) :
    List DimRow :=
  if table.any (fun r => r.uuid == uuid) then
    table.map (fun r =>
      if r.uuid == uuid then ⟨r.uuid, name, r.first_seen, ts⟩ else r)
  else
    table ++ [⟨uuid, name, ts, ts⟩]

/-- Repeated application of the dimension upsert for one `uuid`, over a
sequence of `(name, timestamp)` applications. -/
def upsertMany (table : List DimRow) (uuid : String)
    (apps : List (String × Nat)) : List DimRow :=
  apps.foldl (fun T a => upsertRow T uuid a.1 a.2) table

/-! ### Snapshot batch inserts (`insertTownSnapshots`,
`insertNationSnapshots`, `insertPlayerSnapshots`) -/

/-- A detail record (`json.RawMessage`): the verbatim payload together with
the result of `extractNameUUID` (`some (name, uuid)`, or `none` on a JSON
unmarshal error). -/
structure RawRecord where
  extract : Option (String × String)
  payload : String
deriving DecidableEq, Repr

/-- Function `extractNameUUID`: parse the identity fields of a raw record. -/
def extractNameUUID (r : RawRecord) : Option (String × String) :=
  r.extract

/-- One bound argument of a built SQL statement. -/
inductive SqlArg where
  | ts (t : Nat)
  | str (s : String)
  | raw (payload : String)
deriving DecidableEq, Repr

/-- The placeholder structure of one built multi-row statement: for each
written value tuple `($b+1,$b+2,$b+3,$b+4)`, whether a comma was written
before it and its base index `b`. -/
abbrev TupleShape := List (Bool × Nat)

/-- The statement-building loop of `insertTownSnapshots` over one chunk:
records failing extraction are skipped, but the comma condition and the
placeholder base use the chunk loop index `j` (including skipped records). -/
def townChunkStmt (ts : Nat) (chunk : List RawRecord) :
    TupleShape × List SqlArg :=
  chunk.enum.foldl
    (fun acc jr =>
      match extractNameUUID jr.2 with
      | none => acc
      | some (name, uuid) =>
        (acc.1 ++ [(decide (jr.1 > 0), jr.1 * 4)],
         acc.2 ++ [.ts ts, .str uuid, .str name, .raw jr.2.payload]))
    ([], [])

/-- The statement-building loop of `insertNationSnapshots` over one chunk:
records failing extraction are skipped; the comma condition and the
placeholder base use the running `count` of written tuples. -/
def nationChunkStmt (ts : Nat) (chunk : List RawRecord) :
    TupleShape × List SqlArg :=
  chunk.foldl
    (fun acc r =>
      match extractNameUUID r with
      | none => acc
      | some (name, uuid) =>
        (acc.1 ++ [(decide (acc.1.length > 0), acc.1.length * 4)],
         acc.2 ++ [.ts ts, .str uuid, .str name, .raw r.payload]))
    ([], [])

/-- The statement-building loop of `insertPlayerSnapshots` over one chunk
(same `count`-based construction as for nations). -/
def playerChunkStmt (ts : Nat) (chunk : List RawRecord) :
    TupleShape × List SqlArg :=
  chunk.foldl
    (fun acc r =>
      match extractNameUUID r with
      | none => acc
      | some (name, uuid) =>
        (acc.1 ++ [(decide (acc.1.length > 0), acc.1.length * 4)],
         acc.2 ++ [.ts ts, .str uuid, .str name, .raw r.payload]))
    ([], [])

/-- A built multi-row statement is accepted by the database exactly when its
value tuples are the canonical consecutive form — no comma before the first
tuple, a comma before every later one, bases `0, 4, 8, ...` — and the
argument list binds every placeholder. -/
def stmtOk (tuples : TupleShape) (args : List SqlArg) : Bool :=
  tuples = (List.range tuples.length).map (fun k => (decide (k > 0), k * 4))
    && args.length == 4 * tuples.length

/-- The per-chunk execution loop shared by the three snapshot insert
functions: an empty argument list skips the chunk; a statement the database
rejects fails the whole insert; otherwise the rows of the chunk accumulate. On
success, returns the concatenated argument lists actually inserted. -/
def runChunks (build : List RawRecord → TupleShape × List SqlArg) :
    List (List RawRecord) → Except String (List SqlArg)
  | [] => .ok []
  | c :: cs =>
    let built := build c
    if built.2.isEmpty then runChunks build cs
    else if stmtOk built.1 built.2 then
      match runChunks build cs with
      | .ok rest => .ok (built.2 ++ rest)
      | .error e => .error e
    else .error "batch insert failed"

/-- Snapshot insert chunk size: 500 rows per statement. -/
def snapshotChunkSize : Nat := 500

/-- Function `insertTownSnapshots`: chunked batch insert of town snapshot rows. -/
def insertTownSnapshots (ts : Nat) (details : List RawRecord) :
    Except String (List SqlArg) :=
  runChunks (townChunkStmt ts) (chunksOf snapshotChunkSize details)

/-- Function `insertNationSnapshots`: chunked batch insert of nation snapshot rows. -/
def insertNationSnapshots (ts : Nat) (details : List RawRecord) :
    Except String (List SqlArg) :=
  runChunks (nationChunkStmt ts) (chunksOf snapshotChunkSize details)

/-- Function `insertPlayerSnapshots`: chunked batch insert of player snapshot rows. -/
def insertPlayerSnapshots (ts : Nat) (details : List RawRecord) :
    Except String (List SqlArg) :=
  runChunks (playerChunkStmt ts) (chunksOf snapshotChunkSize details)

/-! ### Partition provisioner (`HighFreq.ensurePartitions`) -/

/-- The provisioner cool-down: 30 minutes, in seconds. -/
def partitionCooldown : Nat := 30 * 60

/-- The mutable provisioner state: the time of the last successful
provisioning run (`lastPartitionCheck`, zero-initialised). -/
structure PartState where
  lastPartitionCheck : Nat
deriving DecidableEq, Repr

/-- What one `ensurePartitions` call did. -/
inductive PartOutcome where
  | skipped
  | failed
  | provisioned
deriving DecidableEq, Repr

/-- Function `ensurePartitions`: a call within the cool-down of the last successful
run returns immediately; otherwise the provisioning statement is executed
(`execOk` tells whether the database call succeeds); on failure the state is
left unchanged and the call returns normally; on success
`lastPartitionCheck` is stamped with the current time. -/
def ensurePartitions (st : PartState) (now : Nat) (execOk : Bool) :
    PartState × PartOutcome :=
  if now - st.lastPartitionCheck < partitionCooldown then (st, .skipped)
  else if execOk then (⟨now⟩, .provisioned)
  else (st, .failed)

/-! ### Admission gates (`sync.Mutex.TryLock` in both tick functions) -/

/-- Method `TryLock` on the per-loop mutex: on a held gate it fails immediately
(no blocking, no queueing); on a free gate it acquires. Returns
(acquired, new-held-state). -/
def tryEnter (held : Bool) : Bool × Bool :=
  if held then (false, true) else (true, true)

/-- An observable action of one tick: an outbound fetch or a store write. -/
inductive TickEvent where
  | fetchCall (endpoint : String)
  | storeWrite (table : String)
deriving DecidableEq, Repr

/-- The store writes of a tick as trace events. -/
def writeEvents (w : TickWrites) : List TickEvent :=
  (match w.activityInsert with
   | some _ => [TickEvent.storeWrite "player_activity"]
   | none => []) ++
  (match w.playersUpsert with
   | some _ => [TickEvent.storeWrite "players"]
   | none => [])

/-- The trace of one `HighFreq.tick` trigger: a denied admission gate
returns before the partition check, the fetches and any write; otherwise the
tick ensures partitions, issues the two fetches and performs the writes of
`tick`. -/
def highFreqTickTrace (held : Bool) (pst : PartState) (now : Nat)
    (execOk : Bool) (online : Except FetchError OnlineResponse)
    (maps : Except FetchError MapPlayersResponse) : List TickEvent :=
  if (tryEnter held).1 = false then []
  else
    (if (ensurePartitions pst now execOk).2 = PartOutcome.skipped then []
     else [TickEvent.storeWrite "create_activity_partitions"]) ++
    [TickEvent.fetchCall "GetOnline", TickEvent.fetchCall "GetMapPlayers"] ++
    writeEvents (tick online maps now)

/-- The trace of one `LowFreq.tick` trigger: a denied admission gate returns
before launching any sub-scrape; otherwise the four sub-scrapes run (their
traces are parameters; one sequential interleaving is shown, order is not
claimed). -/
def lowFreqTickTrace (held : Bool)
    (serverEvents townsEvents nationsEvents playersEvents : List TickEvent) :
    List TickEvent :=
  if (tryEnter held).1 = false then []
  else serverEvents ++ townsEvents ++ nationsEvents ++ playersEvents

/-! ## Theorems settling the claims -/

/-- C1: on a detail list whose first record fails identity extraction and
whose second is valid, `insertTownSnapshots` fails the whole batch (the
skipped record desynchronises the comma/placeholder construction, which is
driven by the chunk loop index `j` instead of the written-tuple count),
while `insertNationSnapshots` and `insertPlayerSnapshots` on the same shape
of input skip the malformed record and insert the valid one. This refutes
the claim for the towns kind and exhibits the intended behaviour on the
other two kinds. -/
theorem town_snapshot_malformed_record_fails_batch :
    (∃ e, insertTownSnapshots 0
        [⟨none, "bad"⟩, ⟨some ("TownName", "TownUUID"), "good"⟩] =
        .error e) ∧
    insertNationSnapshots 0
        [⟨none, "bad"⟩, ⟨some ("NationName", "NationUUID"), "good"⟩] =
      .ok [.ts 0, .str "NationUUID", .str "NationName", .raw "good"] ∧
    insertPlayerSnapshots 0
        [⟨none, "bad"⟩, ⟨some ("PlayerName", "PlayerUUID"), "good"⟩] =
      .ok [.ts 0, .str "PlayerUUID", .str "PlayerName", .raw "good"] ∧
    townChunkStmt 0 [⟨none, "bad"⟩, ⟨some ("TownName", "TownUUID"), "good"⟩] =
      ([(true, 4)],
       [.ts 0, .str "TownUUID", .str "TownName", .raw "good"]) :=
  ⟨⟨"batch insert failed", rfl⟩, rfl, rfl, rfl⟩

/-- C7: a trigger arriving while the admission gate of a loop is held is dropped
with no fetch call and no store write, for both the high-frequency and the
low-frequency loop, and `TryLock` on the held gate fails immediately. -/
theorem admission_gate_denied_no_effects (pst : PartState) (now : Nat)
    (execOk : Bool) (online : Except FetchError OnlineResponse)
    (maps : Except FetchError MapPlayersResponse)
    (serverEvents townsEvents nationsEvents playersEvents : List TickEvent) :
    highFreqTickTrace true pst now execOk online maps = [] ∧
    lowFreqTickTrace true serverEvents townsEvents nationsEvents
      playersEvents = [] ∧
    (tryEnter true).1 = false :=
  ⟨rfl, rfl, rfl⟩

/-- C8: a call to `ensurePartitions` within the cool-down of the last
successful run is a no-op; an eligible call provisions and stamps the state,
after which calls within the cool-down are again no-ops; a failed eligible
attempt leaves the state unchanged and returns normally, and any later
eligible call attempts the work again. -/
theorem partition_provisioner_cooldown (st : PartState) (now now2 : Nat)
    (execOk e2 : Bool) :
    (now - st.lastPartitionCheck < partitionCooldown →
      ensurePartitions st now execOk = (st, .skipped)) ∧
    (partitionCooldown ≤ now - st.lastPartitionCheck →
      ensurePartitions st now true = (⟨now⟩, .provisioned) ∧
      (now2 - now < partitionCooldown →
        ensurePartitions ⟨now⟩ now2 e2 = (⟨now⟩, .skipped)) ∧
      ensurePartitions st now false = (st, .failed) ∧
      (partitionCooldown ≤ now2 - st.lastPartitionCheck →
        (ensurePartitions st now2 e2).2 ≠ PartOutcome.skipped)) := by
  constructor
  · intro h
    simp [ensurePartitions, h]
  · intro h
    have hn : ¬ now - st.lastPartitionCheck < partitionCooldown := by omega
    refine ⟨?_, fun h2 => ?_, ?_, fun h3 => ?_⟩
    · simp [ensurePartitions, hn]
    · simp [ensurePartitions, h2]
    · simp [ensurePartitions, hn]
    · have hn2 : ¬ now2 - st.lastPartitionCheck < partitionCooldown := by
        omega
      cases e2 <;> simp [ensurePartitions, hn2]

/-- Witness for C8 at concrete inputs. -/
theorem partition_provisioner_cooldown_witness :
    ensurePartitions ⟨0⟩ 1800 true = (⟨1800⟩, .provisioned) ∧
    ensurePartitions ⟨1800⟩ 2000 true = (⟨1800⟩, .skipped) ∧
    ensurePartitions ⟨0⟩ 1800 false = (⟨0⟩, .failed) :=
  ⟨((partition_provisioner_cooldown ⟨0⟩ 1800 2000 true true).2
      (by decide)).1,
   (((partition_provisioner_cooldown ⟨0⟩ 1800 2000 true true).2
      (by decide)).2.1 (by decide)),
   (((partition_provisioner_cooldown ⟨0⟩ 1800 2000 true true).2
      (by decide)).2.2.1)⟩

/-- C10: the batched detail fetch on the empty id list issues zero outbound
requests and returns success with an empty result. -/
theorem batch_post_empty_ids {R : Type}
    (post : List String → Except FetchError (List R)) :
    batchPost post [] = (.ok [], 0) :=
  rfl

/-- Witness for C10 at a concrete post function. -/
theorem batch_post_empty_ids_witness :
    batchPost (fun c => (Except.ok c : Except FetchError (List String))) [] =
      (.ok [], 0) :=
  batch_post_empty_ids (fun c => Except.ok c)

/-- C2: with online list `[p1, p2]` and a position feed containing only an
entry whose identifier normalizes to that of `p1` (the identifiers may differ in
separator characters), the tick writes exactly two activity rows: the row of
`p1` is online and visible with the x, y, z, yaw and world of the feed; the
row of `p2` is
online, not visible, with all position fields null. -/
theorem activity_tick_scenario_a (p1 p2 : ListEntry) (mp : MapPlayer)
    (ts : Nat) (cnt mx : Int)
    (hjoin : normalizeUUID mp.uuid = normalizeUUID p1.uuid)
    (hne : normalizeUUID p2.uuid ≠ normalizeUUID p1.uuid) :
    tick (.ok ⟨cnt, [p1, p2]⟩) (.ok ⟨mx, [mp]⟩) ts =
      ⟨some (ts,
        [⟨p1.uuid, p1.name, true, true, some mp.x, some mp.y, some mp.z,
            some mp.yaw, some mp.world⟩,
         ⟨p2.uuid, p2.name, true, false, none, none, none, none, none⟩]),
       some (ts,
        [⟨p1.uuid, p1.name, true, true, some mp.x, some mp.y, some mp.z,
            some mp.yaw, some mp.world⟩,
         ⟨p2.uuid, p2.name, true, false, none, none, none, none, none⟩])⟩ := by
  simp [tick, buildRows, visibleMap, hjoin, hne]

/-- Witness for C2: two sources formatting the same identifier with and
without dashes still join. -/
theorem activity_tick_scenario_a_witness :
    tick (.ok ⟨2, [⟨"P1", "ab-cd"⟩, ⟨"P2", "ef-gh"⟩]⟩)
        (.ok ⟨50, [⟨"world", "P1", 1, 2, 3, "P1", "abcd", 4⟩]⟩) 7 =
      ⟨some (7,
        [⟨"ab-cd", "P1", true, true, some 1, some 2, some 3, some 4,
            some "world"⟩,
         ⟨"ef-gh", "P2", true, false, none, none, none, none, none⟩]),
       some (7,
        [⟨"ab-cd", "P1", true, true, some 1, some 2, some 3, some 4,
            some "world"⟩,
         ⟨"ef-gh", "P2", true, false, none, none, none, none, none⟩])⟩ :=
  activity_tick_scenario_a ⟨"P1", "ab-cd"⟩ ⟨"P2", "ef-gh"⟩
    ⟨"world", "P1", 1, 2, 3, "P1", "abcd", 4⟩ 7 2 50 (by decide) (by decide)

/-- C6: an online-fetch failure aborts the tick with no activity insert and
no dimension upsert; a position-fetch failure alone makes the tick proceed
exactly as with an empty position set, in which every built row is online,
not visible, with null position fields. -/
theorem activity_tick_fetch_errors (e em : FetchError) (o : OnlineResponse)
    (maps : Except FetchError MapPlayersResponse) (ts : Nat) :
    tick (.error e) maps ts = ⟨none, none⟩ ∧
    tick (.ok o) (.error em) ts = tick (.ok o) (.ok ⟨0, []⟩) ts ∧
    ∀ r ∈ buildRows o.players [], r.isOnline = true ∧ r.isVisible = false ∧
      r.x = none ∧ r.y = none ∧ r.z = none ∧ r.yaw = none ∧
      r.world = none := by
  refine ⟨rfl, rfl, ?_⟩
  intro r hr
  simp only [buildRows, visibleMap, List.foldl_nil, List.mem_map] at hr
  obtain ⟨op, _, rfl⟩ := hr
  exact ⟨rfl, rfl, rfl, rfl, rfl, rfl, rfl⟩

/-- Witness for C6 at concrete fetch results. -/
theorem activity_tick_fetch_errors_witness :
    tick (.error .decodeError) (.ok ⟨0, []⟩) 5 = ⟨none, none⟩ ∧
    tick (.ok ⟨1, [⟨"P1", "u1"⟩]⟩) (.error .exhausted) 5 =
      tick (.ok ⟨1, [⟨"P1", "u1"⟩]⟩) (.ok ⟨0, []⟩) 5 :=
  ⟨(activity_tick_fetch_errors .decodeError .exhausted ⟨1, [⟨"P1", "u1"⟩]⟩
      (.ok ⟨0, []⟩) 5).1,
   (activity_tick_fetch_errors .decodeError .exhausted ⟨1, [⟨"P1", "u1"⟩]⟩
      (.ok ⟨0, []⟩) 5).2.1⟩

/-- The retry loop never issues more attempts than it has iterations left
plus those already made. -/
theorem retryLoop_made_le {V : Type} (f : Nat → AttemptOutcome V) :
    ∀ (remaining attempt made waited : Nat),
      (retryLoop f remaining attempt made waited).attemptsMade ≤
        made + remaining := by
  intro remaining
  induction remaining with
  | zero => intro attempt made waited; simp [retryLoop]
  | succ k ih =>
    intro attempt made waited
    rw [retryLoop]
    cases hf : f attempt with
    | netError =>
      simpa using (ih (attempt + 1) (made + 1) _).trans (by omega)
    | response status dec =>
      by_cases h5 : 500 ≤ status
      · simp only [h5, if_true]
        exact (ih (attempt + 1) (made + 1) _).trans (by omega)
      · by_cases h4 : 400 ≤ status
        · simp [h5, h4]
        · cases dec <;> simp [h5, h4]

/-- C3: the retry loop makes at most 3 attempts; when a request gets 5xx
responses on attempts 1 and 2 and a decodable success on attempt 3, the
caller receives the decoded result, exactly 3 attempts are made, and the
total backoff slept is `backoff 1 + backoff 2` (1 + 2 time-units of
exponential backoff). -/
theorem fetch_retry_scenario_c {V : Type} (f : Nat → AttemptOutcome V)
    (s1 s2 s3 : Nat) (d1 d2 : Option V) (v : V)
    (h0 : f 0 = .response s1 d1) (hs1 : 500 ≤ s1)
    (h1 : f 1 = .response s2 d2) (hs2 : 500 ≤ s2)
    (h2 : f 2 = .response s3 (some v)) (hs3 : s3 < 400) :
    (doWithRetry f).result = .ok v ∧
    (doWithRetry f).totalBackoff = backoff 1 + backoff 2 ∧
    (doWithRetry f).attemptsMade = 3 ∧
    ∀ g : Nat → AttemptOutcome V, (doWithRetry g).attemptsMade ≤ 3 := by
  have h5 : ¬ 500 ≤ s3 := by omega
  have h4 : ¬ 400 ≤ s3 := by omega
  refine ⟨?_, ?_, ?_, fun g => retryLoop_made_le g 3 0 0 0⟩ <;>
    simp [doWithRetry, retryLoop, h0, h1, h2, hs1, hs2, h5, h4, backoff]

/-- Witness for C3: 5xx twice, then a success carrying 42; total backoff
1 + 2 seconds. -/
theorem fetch_retry_scenario_c_witness :
    (doWithRetry (fun n =>
      if n = 0 then .response 500 none
      else if n = 1 then .response 503 none
      else .response 200 (some 42))).result = .ok 42 ∧
    (doWithRetry (fun n =>
      if n = 0 then .response 500 none
      else if n = 1 then .response 503 none
      else .response 200 (some (42 : Nat)))).totalBackoff =
      backoff 1 + backoff 2 :=
  ⟨(fetch_retry_scenario_c _ 500 503 200 none none 42 rfl (by decide) rfl
      (by decide) rfl (by decide)).1,
   (fetch_retry_scenario_c _ 500 503 200 none none 42 rfl (by decide) rfl
      (by decide) rfl (by decide)).2.1⟩

/-- C9: a 4xx response on the first attempt fails the call immediately with
exactly one attempt and no backoff; a decode failure on a success status
fails immediately the same way; a success status with a decoded value
returns that value. -/
theorem fetch_no_retry_on_4xx_or_decode {V : Type}
    (f : Nat → AttemptOutcome V) (s : Nat) (d : Option V)
    (h0 : f 0 = .response s d) :
    (400 ≤ s → s < 500 → doWithRetry f =
      ⟨.error (.clientError s), 1, 0⟩) ∧
    (s < 400 → d = none → doWithRetry f = ⟨.error .decodeError, 1, 0⟩) ∧
    (∀ v : V, s < 400 → d = some v → doWithRetry f = ⟨.ok v, 1, 0⟩) := by
  refine ⟨fun h4 h5 => ?_, fun hs hd => ?_, fun v hs hd => ?_⟩
  · have hno5 : ¬ 500 ≤ s := by omega
    simp [doWithRetry, retryLoop, h0, hno5, h4]
  · have hno5 : ¬ 500 ≤ s := by omega
    have hno4 : ¬ 400 ≤ s := by omega
    simp [doWithRetry, retryLoop, h0, hno5, hno4, hd]
  · have hno5 : ¬ 500 ≤ s := by omega
    have hno4 : ¬ 400 ≤ s := by omega
    simp [doWithRetry, retryLoop, h0, hno5, hno4, hd]

/-- Witness for C9: a 404 fails after exactly one attempt; a decode failure
on a 200 fails after one attempt; a decodable 200 succeeds. -/
theorem fetch_no_retry_witness :
    doWithRetry (fun _ => (.response 404 none : AttemptOutcome Nat)) =
      ⟨.error (.clientError 404), 1, 0⟩ ∧
    doWithRetry (fun _ => (.response 200 none : AttemptOutcome Nat)) =
      ⟨.error .decodeError, 1, 0⟩ ∧
    doWithRetry (fun _ => (.response 200 (some 9) : AttemptOutcome Nat)) =
      ⟨.ok 9, 1, 0⟩ :=
  ⟨(fetch_no_retry_on_4xx_or_decode _ 404 none rfl).1 (by decide) (by decide),
   (fetch_no_retry_on_4xx_or_decode _ 200 none rfl).2.1 (by decide) rfl,
   (fetch_no_retry_on_4xx_or_decode _ 200 (some 9) rfl).2.2 9 (by decide)
     rfl⟩

/-- Function `chunksGo` on the empty list is empty, for any fuel. -/
theorem chunksGo_nil (n fuel : Nat) :
    chunksGo n fuel ([] : List α) = [] := by
  cases fuel <;> rfl

/-- Unfolding `chunksGo` on a nonempty list with positive fuel. -/
theorem chunksGo_cons_eq (n fuel : Nat) (xs : List α) (h : xs ≠ []) :
    chunksGo n (fuel + 1) xs = xs.take n :: chunksGo n fuel (xs.drop n) := by
  cases xs with
  | nil => exact absurd rfl h
  | cons x rest => rfl

/-- The chunks concatenate back to the original list (losslessness, order
preserved). -/
theorem chunksGo_flatten (n : Nat) (hn : 0 < n) :
    ∀ (fuel : Nat) (xs : List α), xs.length ≤ fuel →
      (chunksGo n fuel xs).flatten = xs := by
  intro fuel
  induction fuel with
  | zero =>
    intro xs hlen
    have hx : xs = [] := List.eq_nil_of_length_eq_zero (by omega)
    subst hx
    rfl
  | succ k ih =>
    intro xs hlen
    cases xs with
    | nil => rfl
    | cons x rest =>
      have hd : ((x :: rest).drop n).length ≤ k := by
        rw [List.length_drop, List.length_cons]
        rw [List.length_cons] at hlen
        omega
      rw [chunksGo_cons_eq n k _ (by simp), List.flatten_cons, ih _ hd,
        List.take_append_drop]

/-- The number of chunks is the ceiling of `length / n`. -/
theorem chunksGo_length (n : Nat) (hn : 0 < n) :
    ∀ (fuel : Nat) (xs : List α), xs.length ≤ fuel →
      (chunksGo n fuel xs).length = (xs.length + n - 1) / n := by
  intro fuel
  induction fuel with
  | zero =>
    intro xs hlen
    have hx : xs = [] := List.eq_nil_of_length_eq_zero (by omega)
    subst hx
    have h0 : (n - 1) / n = 0 := Nat.div_eq_of_lt (by omega)
    simp [chunksGo_nil, h0]
  | succ k ih =>
    intro xs hlen
    cases xs with
    | nil =>
      have h0 : (n - 1) / n = 0 := Nat.div_eq_of_lt (by omega)
      simp [chunksGo_nil, h0]
    | cons x rest =>
      rw [List.length_cons] at hlen
      have hd : ((x :: rest).drop n).length ≤ k := by
        rw [List.length_drop, List.length_cons]
        omega
      rw [chunksGo_cons_eq n k _ (by simp), List.length_cons, ih _ hd,
        List.length_drop, List.length_cons]
      rcases le_or_lt n (rest.length + 1) with hge | hlt
      · rw [show rest.length + 1 + n - 1 =
            ((rest.length + 1 - n) + n - 1) + n by omega,
          Nat.add_div_right _ hn]
      · rw [show rest.length + 1 - n = 0 by omega]
        rw [Nat.div_eq_of_lt (by omega)]
        have h1 : (rest.length + 1 + n - 1) / n = 1 :=
          Nat.div_eq_of_lt_le (by omega) (by omega)
        rw [h1]

/-- Every chunk is nonempty and no longer than `n`. -/
theorem chunksGo_sizes (n : Nat) (hn : 0 < n) :
    ∀ (fuel : Nat) (xs : List α), xs.length ≤ fuel →
      ∀ c ∈ chunksGo n fuel xs, c ≠ [] ∧ c.length ≤ n := by
  intro fuel
  induction fuel with
  | zero =>
    intro xs hlen c hc
    have hx : xs = [] := List.eq_nil_of_length_eq_zero (by omega)
    subst hx
    simp [chunksGo_nil] at hc
  | succ k ih =>
    intro xs hlen c hc
    cases xs with
    | nil => simp [chunksGo_nil] at hc
    | cons x rest =>
      rw [List.length_cons] at hlen
      have hd : ((x :: rest).drop n).length ≤ k := by
        rw [List.length_drop, List.length_cons]
        omega
      rw [chunksGo_cons_eq n k _ (by simp), List.mem_cons] at hc
      rcases hc with rfl | hc
      · refine ⟨by simp [List.take_eq_nil_iff]; omega, ?_⟩
        rw [List.length_take]
        omega
      · exact ih _ hd c hc

/-- Every chunk except possibly the last has length exactly `n`. -/
theorem chunksGo_full_chunks (n : Nat) (hn : 0 < n) :
    ∀ (fuel : Nat) (xs : List α), xs.length ≤ fuel →
      ∀ c ∈ (chunksGo n fuel xs).dropLast, c.length = n := by
  intro fuel
  induction fuel with
  | zero =>
    intro xs hlen c hc
    have hx : xs = [] := List.eq_nil_of_length_eq_zero (by omega)
    subst hx
    simp [chunksGo_nil] at hc
  | succ k ih =>
    intro xs hlen c hc
    cases xs with
    | nil => simp [chunksGo_nil] at hc
    | cons x rest =>
      rw [List.length_cons] at hlen
      have hd : ((x :: rest).drop n).length ≤ k := by
        rw [List.length_drop, List.length_cons]
        omega
      rw [chunksGo_cons_eq n k _ (by simp)] at hc
      by_cases hrest : (x :: rest).drop n = []
      · rw [hrest, chunksGo_nil] at hc
        simp at hc
      · have hlong : n < rest.length + 1 := by
          by_contra hle
          exact hrest (List.drop_eq_nil_of_le (by simp; omega))
        have hne : chunksGo n k ((x :: rest).drop n) ≠ [] := by
          cases hk : k with
          | zero =>
            exfalso
            have hz : ((x :: rest).drop n).length = 0 := by
              rw [hk] at hd
              omega
            exact hrest (List.eq_nil_of_length_eq_zero hz)
          | succ k2 =>
            rw [chunksGo_cons_eq n k2 _ hrest]
            simp
        rw [List.dropLast_cons_of_ne_nil hne, List.mem_cons] at hc
        rcases hc with rfl | hc
        · rw [List.length_take, List.length_cons]
          omega
        · exact ih _ hd c hc

/-- Losslessness transferred to `chunksOf`. -/
theorem chunksOf_flatten (n : Nat) (hn : 0 < n) (xs : List α) :
    (chunksOf n xs).flatten = xs :=
  chunksGo_flatten n hn xs.length xs le_rfl

/-- Chunk count transferred to `chunksOf`. -/
theorem chunksOf_length (n : Nat) (hn : 0 < n) (xs : List α) :
    (chunksOf n xs).length = (xs.length + n - 1) / n :=
  chunksGo_length n hn xs.length xs le_rfl

/-- When the POST of every chunk succeeds and returns one record per id (in
order), the collection loop returns the concatenation and issues one request
per chunk. -/
theorem batchPostAux_ok {R : Type}
    (post : List String → Except FetchError (List R)) (g : String → R) :
    ∀ cs : List (List String), (∀ c ∈ cs, post c = .ok (c.map g)) →
      batchPostAux post cs = (.ok (cs.flatten.map g), cs.length) := by
  intro cs
  induction cs with
  | nil => intro _; rfl
  | cons c rest ih =>
    intro h
    rw [batchPostAux, h c (by simp), ih (fun d hd => h d (by simp [hd]))]
    simp [Except.map]

/-- C4: the batched detail fetch splits the id list into consecutive chunks
of `batchSize = 100`, issues exactly one outbound request per chunk
(`⌈length/100⌉` requests; 250 ids yield 3 requests, 150 ids yield 2), every
chunk is nonempty of size ≤ 100 and every chunk but the last has size
exactly 100, and the per-chunk results concatenate in request order to the
full record set. -/
theorem entity_details_batching {R : Type}
    (post : List String → Except FetchError (List R)) (g : String → R)
    (uuids : List String)
    (h : ∀ c ∈ chunksOf batchSize uuids, post c = .ok (c.map g)) :
    batchPost post uuids =
      (.ok (uuids.map g), (uuids.length + batchSize - 1) / batchSize) ∧
    (chunksOf batchSize uuids).flatten = uuids ∧
    (∀ c ∈ chunksOf batchSize uuids, c ≠ [] ∧ c.length ≤ batchSize) ∧
    (∀ c ∈ (chunksOf batchSize uuids).dropLast, c.length = batchSize) ∧
    (uuids.length = 250 → (batchPost post uuids).2 = 3) ∧
    (uuids.length = 150 → (batchPost post uuids).2 = 2) := by
  have hn : 0 < batchSize := by decide
  have hmain : batchPost post uuids =
      (.ok (uuids.map g), (uuids.length + batchSize - 1) / batchSize) := by
    rw [batchPost, batchPostAux_ok post g _ h, chunksOf_flatten _ hn,
      chunksOf_length _ hn]
  refine ⟨hmain, chunksOf_flatten _ hn uuids,
    chunksGo_sizes batchSize hn uuids.length uuids le_rfl,
    chunksGo_full_chunks batchSize hn uuids.length uuids le_rfl,
    fun h250 => ?_, fun h150 => ?_⟩
  · rw [hmain, h250]
    rfl
  · rw [hmain, h150]
    rfl

/-- Witness for C4: 250 ids against an echo server yield the 250 ids back in
3 requests. -/
theorem entity_details_batching_witness :
    batchPost (fun c => (Except.ok c : Except FetchError (List String)))
        ((List.range 250).map toString) =
      (.ok ((List.range 250).map toString), 3) := by
  have h := entity_details_batching
    (fun c => (Except.ok c : Except FetchError (List String))) id
    ((List.range 250).map toString) (fun c _ => by simp)
  have hlen : ((List.range 250).map toString).length = 250 := by simp
  rw [h.1, List.map_id, hlen]
  rfl

/-- The effect of one conflict-update application on the unique row of the
upserted key: the name and `last_seen` are replaced, `uuid` and `first_seen`
are kept. -/
def applyApp (r : DimRow) (a : String × Nat) : DimRow :=
  ⟨r.uuid, a.1, r.first_seen, a.2⟩

/-- Unfolding one application of `upsertMany`. -/
theorem upsertMany_cons (T : List DimRow) (uuid : String) (a : String × Nat)
    (apps : List (String × Nat)) :
    upsertMany T uuid (a :: apps) =
      upsertMany (upsertRow T uuid a.1 a.2) uuid apps :=
  rfl

/-- Upserting a key absent from the table appends a fresh row with
`first_seen = last_seen = ts`. -/
theorem upsertRow_not_present (T : List DimRow) (uuid n : String) (t : Nat)
    (h : T.filter (fun r => r.uuid == uuid) = []) :
    (upsertRow T uuid n t).filter (fun r => r.uuid == uuid) =
      [⟨uuid, n, t, t⟩] := by
  have hany : T.any (fun r => r.uuid == uuid) = false := by
    rw [List.any_eq_false]
    intro r hr
    simpa using List.filter_eq_nil_iff.mp h r hr
  rw [upsertRow]
  simp [hany, List.filter_append, h]

/-- The conflict-update map commutes with filtering by the upserted key
(the update keeps the `uuid` of every row). -/
theorem filter_update_map (uuid n : String) (t : Nat) :
    ∀ T : List DimRow,
      (T.map (fun r => if r.uuid == uuid then
          (⟨r.uuid, n, r.first_seen, t⟩ : DimRow) else r)).filter
        (fun r => r.uuid == uuid) =
      (T.filter (fun r => r.uuid == uuid)).map
        (fun r => (⟨r.uuid, n, r.first_seen, t⟩ : DimRow)) := by
  intro T
  induction T with
  | nil => rfl
  | cons r T ih =>
    simp only [beq_iff_eq] at ih ⊢
    by_cases hc : r.uuid = uuid
    · simp [List.filter_cons, hc, ih]
    · simp [List.filter_cons, hc, ih]

/-- Upserting a key whose unique row is `r0` updates the name and
`last_seen` of that row and keeps its `first_seen`. -/
theorem upsertRow_present (T : List DimRow) (uuid n : String) (t : Nat)
    (r0 : DimRow) (h : T.filter (fun r => r.uuid == uuid) = [r0]) :
    (upsertRow T uuid n t).filter (fun r => r.uuid == uuid) =
      [⟨uuid, n, r0.first_seen, t⟩] := by
  have hr0 : r0 ∈ T.filter (fun r => r.uuid == uuid) := by rw [h]; simp
  have hbeq : (r0.uuid == uuid) = true := (List.mem_filter.mp hr0).2
  have huuid : r0.uuid = uuid := eq_of_beq hbeq
  have hany : T.any (fun r => r.uuid == uuid) = true :=
    List.any_eq_true.mpr ⟨r0, List.mem_of_mem_filter hr0, hbeq⟩
  rw [upsertRow, if_pos hany, filter_update_map uuid n t T, h]
  simp [huuid]

/-- Folding further applications over a table whose unique row for the key
is `r0` leaves exactly the folded row. -/
theorem upsertMany_filter (uuid : String) :
    ∀ (apps : List (String × Nat)) (T : List DimRow) (r0 : DimRow),
      T.filter (fun r => r.uuid == uuid) = [r0] → r0.uuid = uuid →
      (upsertMany T uuid apps).filter (fun r => r.uuid == uuid) =
        [apps.foldl applyApp r0] := by
  intro apps
  induction apps with
  | nil =>
    intro T r0 h hu
    simpa [upsertMany] using h
  | cons a rest ih =>
    intro T r0 h hu
    have h1 := upsertRow_present T uuid a.1 a.2 r0 h
    have heq : (⟨uuid, a.1, r0.first_seen, a.2⟩ : DimRow) = applyApp r0 a := by
      simp [applyApp, hu]
    rw [heq] at h1
    rw [upsertMany_cons, List.foldl_cons]
    exact ih _ (applyApp r0 a) h1 hu

/-- Folding `applyApp` over a nonempty application list yields the row with
the last name and last timestamp, keeping `uuid` and `first_seen`. -/
theorem foldl_applyApp :
    ∀ (apps : List (String × Nat)) (h : apps ≠ []) (r0 : DimRow),
      apps.foldl applyApp r0 =
        ⟨r0.uuid, (apps.getLast h).1, r0.first_seen, (apps.getLast h).2⟩ := by
  intro apps
  induction apps with
  | nil => intro h; exact absurd rfl h
  | cons a rest ih =>
    intro h r0
    cases rest with
    | nil => simp [applyApp]
    | cons b rest2 =>
      rw [List.foldl_cons, ih (by simp) (applyApp r0 a)]
      have hg : (a :: b :: rest2).getLast h =
          (b :: rest2).getLast (by simp) := List.getLast_cons (by simp)
      rw [hg]
      rfl

/-- In a `≤`-sorted list the head is a lower bound. -/
theorem sorted_head_le (l : List Nat) (hs : l.Sorted (· ≤ ·)) (h : l ≠ []) :
    ∀ x ∈ l, l.head h ≤ x := by
  cases l with
  | nil => exact absurd rfl h
  | cons a t =>
    intro x hx
    rcases List.mem_cons.mp hx with rfl | hx
    · exact le_refl x
    · exact List.rel_of_sorted_cons hs x hx

/-- In a `≤`-sorted list the last element is an upper bound. -/
theorem sorted_le_getLast :
    ∀ (l : List Nat), l.Sorted (· ≤ ·) → ∀ (h : l ≠ []) (x : Nat), x ∈ l →
      x ≤ l.getLast h := by
  intro l
  induction l with
  | nil => intro _ h; exact absurd rfl h
  | cons a t ih =>
    intro hs h x hx
    cases t with
    | nil =>
      rcases List.mem_cons.mp hx with rfl | hx
      · exact le_refl x
      · simp at hx
    | cons b t2 =>
      rw [List.getLast_cons (by simp)]
      rcases List.mem_cons.mp hx with rfl | hx
      · exact le_trans
          (List.rel_of_sorted_cons hs _ (List.getLast_mem (by simp)))
          (le_refl _)
      · exact ih ((List.sorted_cons.mp hs).2) (by simp) x hx

/-- C5: starting from a table with no row for the id, applying the dimension
upsert for one id over a nonempty sequence of (name, timestamp) applications
with non-decreasing timestamps leaves exactly one row for that id: its name
is the last applied name, its `first_seen` the first (= earliest) applied
timestamp, its `last_seen` the last (= latest) applied timestamp; the first
timestamp is indeed the minimum and the last the maximum of those applied. -/
theorem dimension_upsert_idempotent (T : List DimRow) (uuid : String)
    (apps : List (String × Nat)) (hfree : T.filter (fun r => r.uuid == uuid) = [])
    (hne : apps ≠ []) (hmono : (apps.map Prod.snd).Sorted (· ≤ ·)) :
    (upsertMany T uuid apps).filter (fun r => r.uuid == uuid) =
      [⟨uuid, (apps.getLast hne).1, (apps.head hne).2,
          (apps.getLast hne).2⟩] ∧
    ∀ p ∈ apps, (apps.head hne).2 ≤ p.2 ∧ p.2 ≤ (apps.getLast hne).2 := by
  constructor
  · cases apps with
    | nil => exact absurd rfl hne
    | cons a rest =>
      have h1 := upsertRow_not_present T uuid a.1 a.2 hfree
      have h2 := upsertMany_filter uuid rest (upsertRow T uuid a.1 a.2)
        ⟨uuid, a.1, a.2, a.2⟩ h1 rfl
      rw [upsertMany_cons, h2]
      cases rest with
      | nil => rfl
      | cons b rest2 =>
        rw [foldl_applyApp (b :: rest2) (by simp)]
        have hg : (a :: b :: rest2).getLast hne =
            (b :: rest2).getLast (by simp) := List.getLast_cons (by simp)
        rw [hg]
        rfl
  · intro p hp
    constructor
    · have hh : (apps.map Prod.snd).head (by simpa using hne) =
          (apps.head hne).2 := List.head_map Prod.snd apps _
      have := sorted_head_le (apps.map Prod.snd) hmono
        (by simpa using hne) p.2 (List.mem_map_of_mem Prod.snd hp)
      rwa [hh] at this
    · have hl : (apps.map Prod.snd).getLast (by simpa using hne) =
          (apps.getLast hne).2 := List.getLast_map Prod.snd apps _
      have := sorted_le_getLast (apps.map Prod.snd) hmono
        (by simpa using hne) p.2 (List.mem_map_of_mem Prod.snd hp)
      rwa [hl] at this

/-- Witness for C5: three applications at non-decreasing timestamps 1, 2, 5
leave one row named by the last application with first_seen 1 and
last_seen 5. -/
theorem dimension_upsert_idempotent_witness :
    (upsertMany [] "u" [("a", 1), ("b", 2), ("c", 5)]).filter
        (fun r => r.uuid == "u") = [⟨"u", "c", 1, 5⟩] :=
  (dimension_upsert_idempotent [] "u" [("a", 1), ("b", 2), ("c", 5)] rfl
    (by decide) (by decide)).1

end EarthMC
